import Mathlib

/-!
Shallow embedding of `src/vs/platform/audioCues/browser/audioCueService.ts`
(the audio-cue enablement and playback service) and proofs of the frozen
claims about it.

The embedding follows the TypeScript source:
* `Sound` / `AudioCue` model the statically registered catalog objects
  (both classes have private constructors, so exactly the registered
  instances exist; reference equality on them coincides with equality of
  the inductive below).
* `isEnabledValue` models the body of the `derived` observable built in
  `AudioCueService.isEnabledCache` (lines 107-125).
* `getVolumeInPercent` models `AudioCueService.getVolumeInPercent`
  (lines 54-61) over an explicit JavaScript-number model that carries NaN.
* `playSoundCall` models a single `AudioCueService.playSound` call
  (lines 65-91), parameterised by the behaviour of `audio.play()`.
* `step` / `runTrace` model the evolution of the `playingSounds` registry
  (lines 63-79) under interleaved calls and playback events.
* `Cache` models the `Cache` class (lines 133-147).
* `playAudioCues` models `AudioCueService.playAudioCues` (lines 48-52).
-/

/-- The ten `Sound` objects registered by `Sound.register` in the source.
The class constructor is private, so these are the only instances and
reference equality is equality of this inductive. -/
inductive Sound
  | error
  | warning
  | foldedArea
  | break_
  | quickFixes
  | taskCompleted
  | taskFailed
  | terminalBell
  | diffLineInserted
  | diffLineDeleted
deriving DecidableEq, Repr, Fintype

/-- `Sound.fileName`, from the `Sound.register` calls (lines 159-168). -/
def Sound.fileName : Sound → String
  | .error => "error.mp3"
  | .warning => "warning.mp3"
  | .foldedArea => "foldedAreas.mp3"
  | .break_ => "break.mp3"
  | .quickFixes => "quickFixes.mp3"
  | .taskCompleted => "taskCompleted.mp3"
  | .taskFailed => "taskFailed.mp3"
  | .terminalBell => "terminalBell.mp3"
  | .diffLineInserted => "diffLineInserted.mp3"
  | .diffLineDeleted => "diffLineDeleted.mp3"

/-- The thirteen `AudioCue` objects registered by `AudioCue.register`
(lines 190-262). The constructor is private, so these are the only
instances. -/
inductive AudioCue
  | error
  | warning
  | foldedArea
  | break_
  | inlineSuggestion
  | terminalQuickFix
  | onDebugBreak
  | noInlayHints
  | taskCompleted
  | taskFailed
  | terminalBell
  | diffLineInserted
  | diffLineDeleted
deriving DecidableEq, Repr, Fintype

/-- `AudioCue.sound`, from the registration table. -/
def AudioCue.sound : AudioCue → Sound
  | .error => .error
  | .warning => .warning
  | .foldedArea => .foldedArea
  | .break_ => .break_
  | .inlineSuggestion => .quickFixes
  | .terminalQuickFix => .quickFixes
  | .onDebugBreak => .break_
  | .noInlayHints => .error
  | .taskCompleted => .taskCompleted
  | .taskFailed => .taskFailed
  | .terminalBell => .terminalBell
  | .diffLineInserted => .diffLineInserted
  | .diffLineDeleted => .diffLineDeleted

/-- `AudioCue.settingsKey`, from the registration table. -/
def AudioCue.settingsKey : AudioCue → String
  | .error => "audioCues.lineHasError"
  | .warning => "audioCues.lineHasWarning"
  | .foldedArea => "audioCues.lineHasFoldedArea"
  | .break_ => "audioCues.lineHasBreakpoint"
  | .inlineSuggestion => "audioCues.lineHasInlineSuggestion"
  | .terminalQuickFix => "audioCues.terminalQuickFix"
  | .onDebugBreak => "audioCues.onDebugBreak"
  | .noInlayHints => "audioCues.noInlayHints"
  | .taskCompleted => "audioCues.taskCompleted"
  | .taskFailed => "audioCues.taskFailed"
  | .terminalBell => "audioCues.terminalBell"
  | .diffLineInserted => "audioCues.diffLineInserted"
  | .diffLineDeleted => "audioCues.diffLineDeleted"

/-! ## Enablement derivation (lines 100-130) -/

/-- The tri-state value of an audio-cue enablement setting
(`'on' | 'off' | 'auto'` in the source). -/
inductive Setting
  | on
  | off
  | auto
deriving DecidableEq, Repr, Fintype

/-- The body of the `derived('audio cue enabled', ...)` observable created
per cue in `isEnabledCache` (lines 107-125): the per-cue setting is
checked first, and only if that tier is false is the obsolete
(`audioCues.enabled`) setting consulted; both tiers read the current
screen-reader observable. -/
def isEnabledValue (setting : Setting) (obsoleteSetting : Setting)
    (screenReaderAttached : Bool) : Bool :=
  if setting = .on ∨ (setting = .auto ∧ screenReaderAttached) then
    true
  else if obsoleteSetting = .on ∨ (obsoleteSetting = .auto ∧ screenReaderAttached) then
    true
  else
    false

/-! ## Volume resolution (lines 54-61, 76)

JavaScript numbers are modelled as rationals plus NaN: the only values the
volume logic meets are finite numbers and NaN, and `Math.min` / `Math.max`
/ division propagate NaN. -/

/-- A JavaScript number as the volume logic sees it: a finite value or NaN. -/
inductive JsNum
  | nan
  | val (x : ℚ)
deriving DecidableEq, Repr

/-- `Math.min`: returns NaN if either argument is NaN. -/
def jsMin : JsNum → JsNum → JsNum
  | .nan, _ => .nan
  | _, .nan => .nan
  | .val a, .val b => .val (min a b)

/-- `Math.max`: returns NaN if either argument is NaN. -/
def jsMax : JsNum → JsNum → JsNum
  | .nan, _ => .nan
  | _, .nan => .nan
  | .val a, .val b => .val (max a b)

/-- Division of a JavaScript number by a nonzero finite constant. -/
def jsDiv (a : JsNum) (b : ℚ) : JsNum :=
  match a with
  | .nan => .nan
  | .val x => .val (x / b)

/-- The value the configuration service returns for `audioCues.volume`:
a number (possibly NaN), a string, or `undefined` (key unset). -/
inductive ConfigValue
  | num (n : JsNum)
  | str (s : String)
  | undef
deriving DecidableEq, Repr

/-- `AudioCueService.getVolumeInPercent` (lines 54-61): if the configured
value is not a number (`typeof volume !== 'number'`) return 50, else
return `Math.max(Math.min(volume, 100), 0)`. NaN has `typeof` `'number'`,
so it passes the check and propagates through min/max. -/
def getVolumeInPercent (cfg : ConfigValue) : JsNum :=
  match cfg with
  | .num n => jsMax (jsMin n (.val 100)) (.val 0)
  | .str _ => .val 50
  | .undef => .val 50

/-- The volume assigned to the audio element at line 76:
`audio.volume = this.getVolumeInPercent() / 100`. -/
def effectiveVolume (cfg : ConfigValue) : JsNum :=
  jsDiv (getVolumeInPercent cfg) 100

/-! ## A single `playSound` call (lines 65-91)

`audio.play()` resolves when playback has successfully begun, rejects on a
load/decode/hardware error, and may also never settle.  The `'ended'`
listener added at line 77 is a separate, later event (end of the audio),
modelled by the trace semantics further below; this model covers the
synchronous prefix and the awaited race of one call. -/

/-- Behaviour of the `audio.play()` promise for one call. -/
inductive PlayBehaviour
  | resolves (atMs : ℕ)
  | rejects (atMs : ℕ)
  | never
deriving DecidableEq, Repr

/-- Result of racing the `audio.play()` promise against a timeout:
when the race settles (in ms from the call) and whether it rejects. -/
structure RaceResult where
  settlesAtMs : ℕ
  rejected : Bool
deriving DecidableEq, Repr

/-- Modelled from the spec: `raceTimeout` from `vs/base/common/async` (the
module is not under `src/`): "Start the underlying audio playback and race
it against a fixed timeout.  If the timeout elapses first, abandon waiting"
— the race settles when the first of the promise and the timer settles; a
timeout is a successful (non-error) resolution, and a settlement of the
promise after the timeout is no longer observed by the caller. -/
def raceTimeout (behaviour : PlayBehaviour) (timeoutMs : ℕ) : RaceResult :=
  match behaviour with
  | .resolves t => if t ≤ timeoutMs then ⟨t, false⟩ else ⟨timeoutMs, false⟩
  | .rejects t => if t ≤ timeoutMs then ⟨t, true⟩ else ⟨timeoutMs, false⟩
  | .never => ⟨timeoutMs, false⟩

/-- Observable outcome of one `playSound` call. -/
structure PlaySoundOutcome where
  /-- Whether the call got past the de-duplication check and started a
  playback (added the sound and created an audio element). -/
  started : Bool
  /-- The `playingSounds` registry when the returned promise settles
  (the `'ended'` event, which performs the only removal, fires when the
  audio finishes playing, after the `audio.play()` promise resolves). -/
  registryAfter : Finset Sound
  /-- When (ms after the call) the returned promise settles; `none` would
  mean the caller hangs forever. -/
  returnsAtMs : Option ℕ
  /-- Whether the returned promise rejects (an error reaches the caller). -/
  throws : Bool
  /-- Whether `console.error('Error while playing sound', e)` ran. -/
  errorLogged : Bool
  /-- Whether the call cancelled the in-flight playback request.  No code
  path stops the audio element; the timeout only abandons waiting. -/
  playbackCancelled : Bool
deriving DecidableEq

/-- `AudioCueService.playSound` (lines 65-91) as one call against registry
`reg`, with `audio.play()` behaving as `behaviour`:
line 66-68 de-duplication, line 70 registry add, line 84 race against the
1000 ms timeout, line 85-87 catch-and-log, line 88-90 `audio.remove()`
(which releases the element but neither cancels playback nor touches the
registry). -/
def playSoundCall (reg : Finset Sound) (sound : Sound)
    (allowManyInParallel : Bool) (behaviour : PlayBehaviour) :
    PlaySoundOutcome :=
  if ¬allowManyInParallel ∧ sound ∈ reg then
    { started := false
      registryAfter := reg
      returnsAtMs := some 0
      throws := false
      errorLogged := false
      playbackCancelled := false }
  else
    let race := raceTimeout behaviour 1000
    { started := true
      registryAfter := insert sound reg
      returnsAtMs := some race.settlesAtMs
      throws := false
      errorLogged := race.rejected
      playbackCancelled := false }

/-! ## Registry trace semantics (lines 63-79)

The `playingSounds` registry (a JavaScript `Set<Sound>`, so at most one
entry per sound — a `Finset`) evolves under the synchronous prefix of
`playSound` calls and the later per-element playback events: the `'ended'`
listener (line 77-79) deletes the sound; a rejection of `audio.play()` is
caught and logged (line 85-87) and the `finally` block (line 88-90) only
removes the audio element — neither touches the registry. -/

/-- Status of one audio element created by a `playSound` call. -/
inductive PStatus
  | active
  | finished
  | errored
deriving DecidableEq, Repr

/-- One audio element created at line 75, with the sound it plays. -/
structure Playback where
  sound : Sound
  status : PStatus
deriving DecidableEq, Repr

/-- Service state: the `playingSounds` registry and the audio elements
created so far (indexed by creation order). -/
structure SvcState where
  playingSounds : Finset Sound
  playbacks : List Playback
deriving DecidableEq

/-- Events driving the registry: a `playSound` call reaching its
synchronous prefix, a playback firing its `'ended'` event, or a playback
erroring (its `audio.play()` promise rejecting; no `'ended'` ever fires
for it). -/
inductive Ev
  | call (sound : Sound) (allowManyInParallel : Bool)
  | ended (pid : ℕ)
  | playError (pid : ℕ)
deriving DecidableEq, Repr

/-- One step of the registry semantics, translated from lines 63-91:
`call` runs lines 66-70 (de-duplication check, then `Set.add` and element
creation); `ended` runs the listener of lines 77-79 (`Set.delete`);
`playError` runs the catch of lines 85-87, which logs but does not touch
the registry. -/
def step (σ : SvcState) : Ev → SvcState
  | .call sound allowManyInParallel =>
    if ¬allowManyInParallel ∧ sound ∈ σ.playingSounds then
      σ
    else
      { playingSounds := insert sound σ.playingSounds
        playbacks := σ.playbacks ++ [⟨sound, .active⟩] }
  | .ended pid =>
    match σ.playbacks[pid]? with
    | some p =>
      if p.status = .active then
        { playingSounds := σ.playingSounds.erase p.sound
          playbacks := σ.playbacks.set pid ⟨p.sound, .finished⟩ }
      else
        σ
    | none => σ
  | .playError pid =>
    match σ.playbacks[pid]? with
    | some p =>
      if p.status = .active then
        { σ with playbacks := σ.playbacks.set pid ⟨p.sound, .errored⟩ }
      else
        σ
    | none => σ

/-- The service starts with an empty registry and no audio elements. -/
def initialState : SvcState := ⟨∅, []⟩

/-- Run a sequence of events from the initial state. -/
def runTrace (evs : List Ev) : SvcState :=
  evs.foldl step initialState

/-! ## Memoization cache (lines 133-147)

The JavaScript `Map` is keyed by identity equality; on the interned
catalog objects that is the decidable equality of the inductives above.
The map is modelled as an association list in insertion order. -/

/-- The `Cache` class: its `map` and its `getValue` factory. -/
structure Cache (α β : Type) where
  map : List (α × β)
  getValue : α → β

/-- What one `Cache.get` call yields: the returned value, the cache
afterwards, and whether the factory `getValue` ran during the call. -/
structure CacheGetResult (α β : Type) where
  value : β
  cache : Cache α β
  invoked : Bool

/-- The keys currently stored in the cache. -/
def Cache.keys {α β : Type} (c : Cache α β) : List α :=
  c.map.map Prod.fst

/-- `Cache.get` (lines 138-146): if `map.has(arg)`, return the stored
value; otherwise invoke `getValue`, store the result, and return it.
Nothing is ever evicted. -/
def Cache.get {α β : Type} [DecidableEq α] (c : Cache α β) (arg : α) :
    CacheGetResult α β :=
  match c.map.find? (fun p => p.1 = arg) with
  | some p => ⟨p.2, c, false⟩
  | none =>
    let value := c.getValue arg
    ⟨value, ⟨c.map ++ [(arg, value)], c.getValue⟩, true⟩

/-! ## The per-cue enablement derivation and its cache (lines 100-130) -/

/-- The external state the derivation reads through observables: the
configuration value of each settings key, the obsolete
`audioCues.enabled` value, and whether a screen reader is attached. -/
structure Env where
  setting : String → Setting
  legacy : Setting
  screenReaderAttached : Bool

/-- The factory passed to `new Cache(...)` at line 100: for a cue it
builds the derived observable that reads the cue's own settings key, the
obsolete setting and the screen-reader state — modelled as the function
of the current environment that the derivation computes on read. -/
def cueDerivation (cue : AudioCue) : Env → Bool :=
  fun env =>
    isEnabledValue (env.setting cue.settingsKey) env.legacy
      env.screenReaderAttached

/-- The service's `isEnabledCache` field as first constructed: an empty
map with `cueDerivation` as factory. -/
def isEnabledCache : Cache AudioCue (Env → Bool) :=
  ⟨[], cueDerivation⟩

/-- `AudioCueService.isEnabled` (lines 128-130): delegates to
`isEnabledCache.get`. -/
def isEnabled (c : Cache AudioCue (Env → Bool)) (cue : AudioCue) :
    CacheGetResult AudioCue (Env → Bool) :=
  c.get cue

/-! ## Batch playback (lines 48-52) -/

/-- `Array.from(new Set(l))`: the elements of `l` with duplicates dropped,
in first-occurrence (insertion) order, as a JavaScript `Set` iterates. -/
def jsSetOfList {α : Type} [DecidableEq α] (l : List α) : List α :=
  l.foldl (fun acc a => if a ∈ acc then acc else acc ++ [a]) []

/-- `AudioCueService.playAudioCues` (lines 48-52): the list of sounds the
method passes to `playSound`, one call per element —
`new Set(cues.filter(cue => this.isEnabled(cue).get()).map(cue => cue.sound))`.
`enabled` stands for `this.isEnabled(cue).get()` at call time. -/
def playAudioCues (enabled : AudioCue → Bool) (cues : List AudioCue) :
    List Sound :=
  jsSetOfList ((cues.filter enabled).map AudioCue.sound)

/-- When the `Promise.all` of line 51 settles, given when each sound's
`playSound` promise settles: the join waits for every started playback. -/
def playAudioCuesReturnsAtMs (enabled : AudioCue → Bool)
    (cues : List AudioCue) (settleAt : Sound → ℕ) : ℕ :=
  ((playAudioCues enabled cues).map settleAt).foldr max 0

/-- The invariant that actually governs the `playingSounds` registry:
a member sound always has a started playback that has not yet fired its
`'ended'` event (it may have errored — the error path does not delete);
and a sound some playback of which was started, none of which has yet
fired `'ended'`, is a member. -/
def RegistryInv (σ : SvcState) : Prop :=
  ∀ s : Sound,
    (s ∈ σ.playingSounds →
      ∃ p, p ∈ σ.playbacks ∧ p.sound = s ∧
        (p.status = .active ∨ p.status = .errored)) ∧
    ((∃ p, p ∈ σ.playbacks ∧ p.sound = s) →
      (∀ p, p ∈ σ.playbacks → p.sound = s →
        p.status = .active ∨ p.status = .errored) →
      s ∈ σ.playingSounds)

/-! ## Theorems -/

/-- C1: for every combination of per-cue setting, legacy (obsolete)
setting and screen-reader state, the derived enablement value equals
`(perCue == on ∨ (perCue == auto ∧ sr)) ∨ (legacy == on ∨ (legacy == auto ∧ sr))`;
the definition taken from the source checks the per-cue tier first and
consults the legacy tier only when the per-cue tier is false, both tiers
reading the same current screen-reader value. -/
theorem claim_C1 :
    ∀ (perCueSetting legacySetting : Setting) (screenReaderAttached : Bool),
      isEnabledValue perCueSetting legacySetting screenReaderAttached =
        ((perCueSetting == Setting.on ||
            (perCueSetting == Setting.auto && screenReaderAttached)) ||
          (legacySetting == Setting.on ||
            (legacySetting == Setting.auto && screenReaderAttached))) := by
  decide

/-- C2: a `playSound` call with `allowManyInParallel = false` while the
sound is already in the registry is a no-op: it does not start a second
playback, returns immediately and successfully, leaves the registry
unchanged, and the registry still holds exactly one entry for the sound. -/
theorem claim_C2 (reg : Finset Sound) (sound : Sound)
    (behaviour : PlayBehaviour) (h : sound ∈ reg) :
    (playSoundCall reg sound false behaviour).started = false ∧
    (playSoundCall reg sound false behaviour).registryAfter = reg ∧
    (playSoundCall reg sound false behaviour).throws = false ∧
    (playSoundCall reg sound false behaviour).returnsAtMs = some 0 ∧
    ((playSoundCall reg sound false behaviour).registryAfter.filter
        (fun x => x = sound)).card = 1 := by
  have hcond : ¬(false : Bool) ∧ sound ∈ reg := ⟨by simp, h⟩
  rw [playSoundCall, if_pos hcond]
  refine ⟨rfl, rfl, rfl, rfl, ?_⟩
  rw [Finset.filter_eq', if_pos h, Finset.card_singleton]

/-- Witness for C2 at a concrete registry already holding the sound. -/
theorem claim_C2_witness :
    Sound.error ∈ ({Sound.error} : Finset Sound) ∧
    ((playSoundCall {Sound.error} Sound.error false .never).started = false ∧
     (playSoundCall {Sound.error} Sound.error false .never).registryAfter =
       {Sound.error} ∧
     (playSoundCall {Sound.error} Sound.error false .never).throws = false ∧
     (playSoundCall {Sound.error} Sound.error false .never).returnsAtMs =
       some 0 ∧
     ((playSoundCall {Sound.error} Sound.error false .never).registryAfter.filter
        (fun x => x = Sound.error)).card = 1) :=
  ⟨by decide, claim_C2 {Sound.error} Sound.error .never (by decide)⟩

/-- C6: the effective playback volume is `clamp(value, 0, 100) / 100` for
a numeric configured value (`150` clamps to `100`, `-5` clamps to `0`),
and a missing or non-numeric value defaults to 50 percent. -/
theorem claim_C6 (x : ℚ) (s : String) :
    effectiveVolume (.num (.val x)) = .val (max (min x 100) 0 / 100) ∧
    effectiveVolume (.str s) = .val (50 / 100) ∧
    effectiveVolume .undef = .val (50 / 100) ∧
    getVolumeInPercent (.num (.val 150)) = .val 100 ∧
    getVolumeInPercent (.num (.val (-5))) = .val 0 ∧
    getVolumeInPercent (.str "loud") = .val 50 := by
  refine ⟨rfl, rfl, rfl, ?_, ?_, rfl⟩ <;>
    · simp only [getVolumeInPercent, jsMin, jsMax]
      norm_num

/-- C9: the configured value NaN passes the `typeof volume !== 'number'`
check, `Math.min` / `Math.max` propagate it, so `getVolumeInPercent`
returns NaN and the volume assigned to the audio element is NaN, not the
50-percent default nor any clamped finite value. -/
theorem claim_C9 :
    getVolumeInPercent (.num .nan) = .nan ∧
    effectiveVolume (.num .nan) = .nan ∧
    ∀ q : ℚ, effectiveVolume (.num .nan) ≠ .val q := by
  refine ⟨rfl, rfl, fun q hq => ?_⟩
  exact JsNum.noConfusion hq

/-- Witness for C9's final conjunct at the default value `50 / 100`. -/
theorem claim_C9_witness :
    getVolumeInPercent (.num .nan) = .nan ∧
    effectiveVolume (ConfigValue.num JsNum.nan) ≠ JsNum.val (50 / 100) :=
  ⟨claim_C9.1, claim_C9.2.2 (50 / 100)⟩

/-- C7: whatever the behaviour of the underlying `audio.play()` promise
(resolution, rejection at any time, or never settling), a `playSound`
call settles successfully: no exception reaches the caller, the call
does not hang, and a rejection that arrives before the 1000 ms timeout
is logged (and swallowed). -/
theorem claim_C7 (reg : Finset Sound) (sound : Sound)
    (allowManyInParallel : Bool) (behaviour : PlayBehaviour) :
    (playSoundCall reg sound allowManyInParallel behaviour).throws = false ∧
    (playSoundCall reg sound allowManyInParallel behaviour).returnsAtMs.isSome =
      true ∧
    (∀ t, t ≤ 1000 → behaviour = .rejects t →
      (playSoundCall reg sound allowManyInParallel behaviour).started = true →
      (playSoundCall reg sound allowManyInParallel behaviour).errorLogged =
        true) := by
  rw [playSoundCall]
  split
  · exact ⟨rfl, rfl, fun t ht hb hs => by exact absurd hs (by simp)⟩
  · refine ⟨rfl, rfl, fun t ht hb _ => ?_⟩
    subst hb
    simp [raceTimeout, ht]

/-- Witness for C7 at a playback that rejects 5 ms into the call. -/
theorem claim_C7_witness :
    (playSoundCall ∅ Sound.error false (.rejects 5)).throws = false ∧
    (playSoundCall ∅ Sound.error false (.rejects 5)).returnsAtMs.isSome =
      true ∧
    (playSoundCall ∅ Sound.error false (.rejects 5)).errorLogged = true := by
  obtain ⟨h1, h2, h3⟩ := claim_C7 ∅ Sound.error false (.rejects 5)
  exact ⟨h1, h2, h3 5 (by decide) rfl (by decide)⟩

/-- C8: when the underlying playback never signals that it has begun, a
`playSound` call that actually starts a playback still settles exactly at
the 1000 ms timeout, without throwing, and the timeout does not cancel
the in-flight playback request. -/
theorem claim_C8 (reg : Finset Sound) (sound : Sound)
    (allowManyInParallel : Bool)
    (h : allowManyInParallel = true ∨ sound ∉ reg) :
    (playSoundCall reg sound allowManyInParallel .never).returnsAtMs =
      some 1000 ∧
    (playSoundCall reg sound allowManyInParallel .never).throws = false ∧
    (playSoundCall reg sound allowManyInParallel .never).started = true ∧
    (playSoundCall reg sound allowManyInParallel .never).playbackCancelled =
      false := by
  rcases h with h | h <;> simp [playSoundCall, raceTimeout, h]

/-- Witness for C8 at an empty registry. -/
theorem claim_C8_witness :
    ((false : Bool) = true ∨ Sound.error ∉ (∅ : Finset Sound)) ∧
    ((playSoundCall ∅ Sound.error false .never).returnsAtMs = some 1000 ∧
     (playSoundCall ∅ Sound.error false .never).throws = false ∧
     (playSoundCall ∅ Sound.error false .never).started = true ∧
     (playSoundCall ∅ Sound.error false .never).playbackCancelled = false) :=
  ⟨by decide, claim_C8 ∅ Sound.error false (by decide)⟩

/-- C10: two `playSound(S, allowManyInParallel = true)` calls while S is
playing share the single `Set` entry (the second `add` is absorbed), and
the first `'ended'` event deletes that sole entry, leaving the registry
reporting S as not playing even though the second playback is still in
flight. -/
theorem claim_C10 :
    ∀ s : Sound,
      (runTrace [.call s true, .call s true]).playingSounds = {s} ∧
      ((runTrace [.call s true, .call s true]).playingSounds.filter
          (fun x => x = s)).card = 1 ∧
      (runTrace [.call s true, .call s true]).playbacks =
        [⟨s, .active⟩, ⟨s, .active⟩] ∧
      (runTrace [.call s true, .call s true, .ended 0]).playingSounds = ∅ ∧
      (runTrace [.call s true, .call s true, .ended 0]).playbacks =
        [⟨s, .finished⟩, ⟨s, .active⟩] := by
  decide

/-- C5: on a key not yet cached, `isEnabled` invokes the factory exactly
once and stores the resulting derivation; a second `isEnabled` call for
the same cue returns the identical stored derivation without invoking the
factory and without changing the cache; no stored key is ever evicted;
and the derivation obtained for a cue reads only that cue's own settings
key, the legacy setting and the screen-reader state, so changing a
different cue's setting never changes its value. -/
theorem claim_C5 (c : Cache AudioCue (Env → Bool)) (cue : AudioCue)
    (hfac : c.getValue = cueDerivation) (hfresh : cue ∉ c.keys) :
    (isEnabled c cue).invoked = true ∧
    (isEnabled (isEnabled c cue).cache cue).invoked = false ∧
    (isEnabled (isEnabled c cue).cache cue).value = (isEnabled c cue).value ∧
    (isEnabled (isEnabled c cue).cache cue).cache = (isEnabled c cue).cache ∧
    (∀ k, k ∈ c.keys → k ∈ (isEnabled c cue).cache.keys) ∧
    (isEnabled c cue).value = cueDerivation cue ∧
    (∀ env env' : Env,
      env.setting cue.settingsKey = env'.setting cue.settingsKey →
      env.legacy = env'.legacy →
      env.screenReaderAttached = env'.screenReaderAttached →
      (isEnabled c cue).value env = (isEnabled c cue).value env') := by
  have hfind : c.map.find? (fun p => p.1 = cue) = none := by
    rw [List.find?_eq_none]
    intro p hp
    simp only [decide_eq_true_eq]
    intro hcontra
    exact hfresh (hcontra ▸ List.mem_map_of_mem Prod.fst hp)
  have h1 : isEnabled c cue =
      ⟨c.getValue cue, ⟨c.map ++ [(cue, c.getValue cue)], c.getValue⟩, true⟩ := by
    rw [isEnabled, Cache.get, hfind]
  have hfind2 :
      (c.map ++ [(cue, c.getValue cue)]).find? (fun p => p.1 = cue) =
        some (cue, c.getValue cue) := by
    rw [List.find?_append, hfind, Option.none_or, List.find?_singleton]
    simp
  have h2 : isEnabled (isEnabled c cue).cache cue =
      ⟨c.getValue cue, (isEnabled c cue).cache, false⟩ := by
    rw [h1, isEnabled, Cache.get]
    simp only [hfind2]
  refine ⟨by rw [h1], by rw [h2], by rw [h2, h1], by rw [h2], ?_, ?_, ?_⟩
  · intro k hk
    rw [h1]
    simp only [Cache.keys, List.map_append, List.mem_append]
    exact Or.inl hk
  · rw [h1, hfac]
  · intro env env' hs hl hsr
    rw [h1, hfac]
    simp only [cueDerivation]
    rw [hs, hl, hsr]

/-- Witness for C5: the freshly constructed `isEnabledCache` and the
error cue. -/
theorem claim_C5_witness :
    isEnabledCache.getValue = cueDerivation ∧
    AudioCue.error ∉ isEnabledCache.keys ∧
    ((isEnabled isEnabledCache AudioCue.error).invoked = true ∧
     (isEnabled (isEnabled isEnabledCache AudioCue.error).cache
        AudioCue.error).invoked = false ∧
     (isEnabled (isEnabled isEnabledCache AudioCue.error).cache
        AudioCue.error).value = (isEnabled isEnabledCache AudioCue.error).value) := by
  have h := claim_C5 isEnabledCache AudioCue.error rfl (by simp [isEnabledCache, Cache.keys])
  exact ⟨rfl, by simp [isEnabledCache, Cache.keys], h.1, h.2.1, h.2.2.1⟩

/-- Membership in the `Set`-building fold: an element ends up in the
accumulator exactly when it was already there or occurs in the input. -/
theorem jsSetOfList_foldl_mem {α : Type} [DecidableEq α] (l : List α)
    (acc : List α) (a : α) :
    (a ∈ l.foldl (fun acc x => if x ∈ acc then acc else acc ++ [x]) acc) ↔
      a ∈ acc ∨ a ∈ l := by
  induction l generalizing acc with
  | nil => simp
  | cons x xs ih =>
    simp only [List.foldl_cons]
    by_cases hx : x ∈ acc
    · rw [if_pos hx, ih]
      constructor
      · rintro (h | h)
        · exact Or.inl h
        · exact Or.inr (List.mem_cons_of_mem x h)
      · rintro (h | h)
        · exact Or.inl h
        · rcases List.mem_cons.1 h with rfl | h
          · exact Or.inl hx
          · exact Or.inr h
    · rw [if_neg hx, ih]
      simp only [List.mem_append, List.mem_singleton, List.mem_cons]
      tauto

/-- The `Set`-building fold preserves freedom from duplicates. -/
theorem jsSetOfList_foldl_nodup {α : Type} [DecidableEq α] (l : List α)
    (acc : List α) (h : acc.Nodup) :
    (l.foldl (fun acc x => if x ∈ acc then acc else acc ++ [x]) acc).Nodup := by
  induction l generalizing acc with
  | nil => simpa
  | cons x xs ih =>
    simp only [List.foldl_cons]
    by_cases hx : x ∈ acc
    · rw [if_pos hx]
      exact ih acc h
    · rw [if_neg hx]
      refine ih _ ?_
      rw [List.nodup_append]
      exact ⟨h, List.nodup_singleton x, by simpa using hx⟩

/-- `Array.from(new Set(l))` holds exactly the elements of `l`. -/
theorem jsSetOfList_mem {α : Type} [DecidableEq α] (l : List α) (a : α) :
    a ∈ jsSetOfList l ↔ a ∈ l := by
  rw [jsSetOfList, jsSetOfList_foldl_mem]
  simp

/-- `Array.from(new Set(l))` has no duplicates. -/
theorem jsSetOfList_nodup {α : Type} [DecidableEq α] (l : List α) :
    (jsSetOfList l).Nodup :=
  jsSetOfList_foldl_nodup l [] List.nodup_nil

/-- C4: `playAudioCues` invokes `playSound` exactly on the distinct
sounds of the enabled cues — a sound is played iff some enabled cue in
the list carries it, disabled cues contribute nothing, no sound is
started twice even when two enabled cues share it, and the `Promise.all`
join settles no earlier than every started playback. -/
theorem claim_C4 (enabled : AudioCue → Bool) (cues : List AudioCue)
    (settleAt : Sound → ℕ) :
    (∀ s : Sound, s ∈ playAudioCues enabled cues ↔
      ∃ c, c ∈ cues ∧ enabled c = true ∧ c.sound = s) ∧
    (playAudioCues enabled cues).Nodup ∧
    (∀ c, c ∈ cues → enabled c = true →
      (playAudioCues enabled cues).count c.sound = 1) ∧
    (∀ s, s ∈ playAudioCues enabled cues →
      settleAt s ≤ playAudioCuesReturnsAtMs enabled cues settleAt) := by
  have hmem : ∀ s : Sound, s ∈ playAudioCues enabled cues ↔
      ∃ c, c ∈ cues ∧ enabled c = true ∧ c.sound = s := by
    intro s
    rw [playAudioCues, jsSetOfList_mem]
    simp only [List.mem_map, List.mem_filter]
    constructor
    · rintro ⟨c, ⟨hc, he⟩, hs⟩
      exact ⟨c, hc, he, hs⟩
    · rintro ⟨c, hc, he, hs⟩
      exact ⟨c, ⟨hc, he⟩, hs⟩
  have hnodup : (playAudioCues enabled cues).Nodup :=
    jsSetOfList_nodup _
  refine ⟨hmem, hnodup, ?_, ?_⟩
  · intro c hc he
    have hs : c.sound ∈ playAudioCues enabled cues :=
      (hmem c.sound).2 ⟨c, hc, he, rfl⟩
    have hle := List.nodup_iff_count_le_one.1 hnodup c.sound
    have hpos := List.count_pos_iff.2 hs
    omega
  · intro s hs
    rw [playAudioCuesReturnsAtMs]
    have : settleAt s ∈ (playAudioCues enabled cues).map settleAt :=
      List.mem_map_of_mem settleAt hs
    have hfold : ∀ (l : List ℕ) (x : ℕ), x ∈ l → x ≤ l.foldr max 0 := by
      intro l
      induction l with
      | nil => intro x hx; cases hx
      | cons y ys ih =>
        intro x hx
        rcases List.mem_cons.1 hx with rfl | hx
        · exact le_max_left _ _
        · exact le_trans (ih x hx) (le_max_right _ _)
    exact hfold _ _ this

/-- Witness for C4: two enabled cues sharing `Sound.error`. -/
theorem claim_C4_witness :
    (Sound.error ∈
        playAudioCues (fun _ => true) [AudioCue.error, AudioCue.noInlayHints] ↔
      ∃ c, c ∈ [AudioCue.error, AudioCue.noInlayHints] ∧
        (fun _ : AudioCue => true) c = true ∧ c.sound = Sound.error) ∧
    (playAudioCues (fun _ => true)
        [AudioCue.error, AudioCue.noInlayHints]).Nodup ∧
    (playAudioCues (fun _ => true)
        [AudioCue.error, AudioCue.noInlayHints]).count
      (AudioCue.noInlayHints).sound = 1 ∧
    (fun _ : Sound => 7) Sound.error ≤
      playAudioCuesReturnsAtMs (fun _ => true)
        [AudioCue.error, AudioCue.noInlayHints] (fun _ => 7) := by
  obtain ⟨h1, h2, h3, h4⟩ :=
    claim_C4 (fun _ => true) [AudioCue.error, AudioCue.noInlayHints]
      (fun _ => 7)
  refine ⟨h1 Sound.error, h2, h3 AudioCue.noInlayHints (by decide) rfl,
    h4 Sound.error ?_⟩
  exact (h1 Sound.error).2 ⟨AudioCue.error, by decide, rfl, rfl⟩

/-- An element of a list distinct from the one at the updated index
survives `List.set`. -/
theorem mem_set_of_mem_of_ne {α : Type} {l : List α} {i : ℕ} {p a b : α}
    (ha : a ∈ l) (hi : l[i]? = some p) (hne : a ≠ p) : a ∈ l.set i b := by
  obtain ⟨n, hn, rfl⟩ := List.mem_iff_getElem.1 ha
  have hni : n ≠ i := by
    rintro rfl
    rw [List.getElem?_eq_getElem hn] at hi
    exact hne (Option.some.inj hi)
  rw [List.mem_iff_getElem]
  refine ⟨n, by simpa using hn, ?_⟩
  rw [List.getElem_set_ne (Ne.symm hni)]

/-- The registry invariant is preserved by every event. -/
theorem registryInv_step (σ : SvcState) (ev : Ev) (h : RegistryInv σ) :
    RegistryInv (step σ ev) := by
  cases ev with
  | call sound allow =>
    rw [step]
    split
    · exact h
    · intro s
      constructor
      · intro hs
        rcases Finset.mem_insert.1 hs with rfl | hs
        · exact ⟨⟨s, .active⟩,
            List.mem_append_right _ (List.mem_singleton_self _), rfl,
            Or.inl rfl⟩
        · obtain ⟨p, hp, hps, hst⟩ := (h s).1 hs
          exact ⟨p, List.mem_append_left _ hp, hps, hst⟩
      · rintro ⟨p, hp, hps⟩ hall
        by_cases hseq : s = sound
        · subst hseq
          exact Finset.mem_insert_self _ _
        · have hp' : p ∈ σ.playbacks := by
            rcases List.mem_append.1 hp with hp | hp
            · exact hp
            · rcases List.mem_singleton.1 hp with rfl
              exact absurd hps.symm hseq
          refine Finset.mem_insert_of_mem ((h s).2 ⟨p, hp', hps⟩ ?_)
          intro q hq hqs
          exact hall q (List.mem_append_left _ hq) hqs
  | ended pid =>
    rw [step]
    split
    case h_2 => exact h
    case h_1 p hpid =>
      split
      case isFalse => exact h
      case isTrue hact =>
        obtain ⟨hlt, hgetp⟩ := List.getElem?_eq_some_iff.1 hpid
        intro s
        constructor
        · intro hs
          obtain ⟨hne, hs'⟩ := Finset.mem_erase.1 hs
          obtain ⟨q, hq, hqs, hqst⟩ := (h s).1 hs'
          have hqp : q ≠ p := by
            rintro rfl
            exact hne (hqs ▸ rfl)
          exact ⟨q, mem_set_of_mem_of_ne hq hpid hqp, hqs, hqst⟩
        · rintro ⟨q, hq, hqs⟩ hall
          by_cases hsp : s = p.sound
          · subst hsp
            have hnew : (⟨p.sound, .finished⟩ : Playback) ∈
                σ.playbacks.set pid ⟨p.sound, .finished⟩ :=
              List.mem_set σ.playbacks pid hlt _
            rcases hall _ hnew rfl with hc | hc <;> cases hc
          · have hq' : q ∈ σ.playbacks := by
              rcases List.mem_or_eq_of_mem_set hq with hq | rfl
              · exact hq
              · exact (hsp (by simpa using hqs.symm)).elim
            refine Finset.mem_erase.2 ⟨hsp, (h s).2 ⟨q, hq', hqs⟩ ?_⟩
            intro r hr hrs
            have hrp : r ≠ p := by
              rintro rfl
              exact hsp hrs.symm
            exact hall r (mem_set_of_mem_of_ne hr hpid hrp) hrs
  | playError pid =>
    rw [step]
    split
    case h_2 => exact h
    case h_1 p hpid =>
      split
      case isFalse => exact h
      case isTrue hact =>
        obtain ⟨hlt, hgetp⟩ := List.getElem?_eq_some_iff.1 hpid
        intro s
        constructor
        · intro hs
          obtain ⟨q, hq, hqs, hqst⟩ := (h s).1 hs
          by_cases hqp : q = p
          · subst hqp
            exact ⟨⟨q.sound, .errored⟩,
              List.mem_set σ.playbacks pid hlt _, hqs, Or.inr rfl⟩
          · exact ⟨q, mem_set_of_mem_of_ne hq hpid hqp, hqs, hqst⟩
        · rintro ⟨q, hq, hqs⟩ hall
          have hex : ∃ r, r ∈ σ.playbacks ∧ r.sound = s := by
            rcases List.mem_or_eq_of_mem_set hq with hq' | rfl
            · exact ⟨q, hq', hqs⟩
            · exact ⟨p, hgetp ▸ List.getElem_mem hlt, hqs⟩
          refine (h s).2 hex ?_
          intro r hr hrs
          by_cases hrp : r = p
          · subst hrp
            exact Or.inl hact
          · exact hall r (mem_set_of_mem_of_ne hr hpid hrp) hrs

/-- Every reachable service state satisfies the registry invariant. -/
theorem registryInv_runTrace (evs : List Ev) : RegistryInv (runTrace evs) := by
  rw [runTrace]
  have hfold : ∀ σ, RegistryInv σ → RegistryInv (evs.foldl step σ) := by
    induction evs with
    | nil => exact fun σ h => h
    | cons e es ih => exact fun σ h => ih _ (registryInv_step σ e h)
  apply hfold
  intro s
  refine ⟨fun hs => absurd hs (Finset.not_mem_empty s), ?_⟩
  rintro ⟨p, hp, -⟩ -
  cases hp

/-- C3 as stated is false: after `playSound(error)` whose playback
errors and is cleaned up (logged, element removed), the sound is still a
member of the registry although no playback of it is still in flight —
the error cleanup path never deletes the registry entry. -/
theorem claim_C3_counterexample :
    ¬ (Sound.error ∈
        (runTrace [.call .error false, .playError 0]).playingSounds ↔
      ∃ p, p ∈ (runTrace [.call .error false, .playError 0]).playbacks ∧
        p.sound = Sound.error ∧ p.status = .active) := by
  decide

/-- C3 amended: a member sound always has a started playback that has
not yet fired `'ended'` (though it may have errored); a sound with a
started playback none of whose playbacks has completed is a member; and
the error cleanup path leaves the registry unchanged — removal happens
only on natural completion. -/
theorem claim_C3_amended (evs : List Ev) (s : Sound) (pid : ℕ) :
    (s ∈ (runTrace evs).playingSounds →
      ∃ p, p ∈ (runTrace evs).playbacks ∧ p.sound = s ∧
        (p.status = .active ∨ p.status = .errored)) ∧
    ((∃ p, p ∈ (runTrace evs).playbacks ∧ p.sound = s) →
      (∀ p, p ∈ (runTrace evs).playbacks → p.sound = s →
        p.status = .active ∨ p.status = .errored) →
      s ∈ (runTrace evs).playingSounds) ∧
    (step (runTrace evs) (.playError pid)).playingSounds =
      (runTrace evs).playingSounds := by
  refine ⟨(registryInv_runTrace evs s).1, (registryInv_runTrace evs s).2, ?_⟩
  rw [step]
  split
  · split <;> rfl
  · rfl

/-- Witness for C3's amended statement on the erroring trace. -/
theorem claim_C3_amended_witness :
    Sound.error ∈
      (runTrace [.call .error false, .playError 0]).playingSounds ∧
    (∃ p, p ∈ (runTrace [.call .error false, .playError 0]).playbacks ∧
      p.sound = Sound.error ∧
      (p.status = .active ∨ p.status = .errored)) ∧
    (step (runTrace [.call .error false, .playError 0])
        (.playError 0)).playingSounds =
      (runTrace [.call .error false, .playError 0]).playingSounds := by
  obtain ⟨h1, h2, h3⟩ :=
    claim_C3_amended [.call .error false, .playError 0] Sound.error 0
  exact ⟨by decide, h1 (by decide), h3⟩
